import Mathlib

/-!
Verification development for the ESLint rule `no-unused-classes`
(`src/rules/no-unused-classes/no-unused-classes.ts`).

The rule is embedded shallowly:

* the pure helpers (`isCssFile`, `resolvePhysicalCssFilePath`,
  `getBasePathSetting`, `getMarkAsUsedOption`, `getPrettyUnusedClassNames`,
  `getFixPayloadClassNames`) become Lean functions of the same names;
* JavaScript `Set<string>` values become insertion-ordered duplicate-free
  `List String` values built with `setAdd`;
* the `files` `Map` becomes an insertion-ordered key/value list (`FilesMap`);
* the three traversal callbacks (`ImportDeclaration`, `MemberExpression`,
  `Program:exit`) become step functions over that state, with the external
  collaborators (filesystem, `css-tree`, Node's `path` module,
  `ASTUtils.getPropertyName`) supplied as function-valued parameters;
* `cssTree.parse` throwing on malformed input is an `Except.error` that aborts
  the traversal.
-/

/-- Single-quote character, used when pretty-printing class names. -/
def squote : String := String.singleton (Char.ofNat 39)

/-- Checks whether a character is a JavaScript regexp line terminator; in a
non-dotAll regexp the metacharacter `.` matches every character except these. -/
def isLineTerminator (c : Char) : Bool :=
  c == '\n' || c == '\r' || c.toNat == 0x2028 || c.toNat == 0x2029

/-- Case-insensitive comparison of a tail of the import path against the
literal suffix `.module.css` or `.module.scss`.  The regexp `i` flag on an
all-ASCII pattern folds exactly the ASCII letters, which is what
`Char.toLower` does. -/
def suffixMatches (cs : List Char) : Bool :=
  (cs.map Char.toLower == ".module.css".toList) ||
    (cs.map Char.toLower == ".module.scss".toList)

/-- Runs the regexp `/.+\.module\.(scss|css)$/i` over a character list: the
test succeeds iff some position holds a non-line-terminator character (the last
character consumed by `.+`) whose tail is exactly the case-insensitive suffix
ending at the end of the input (the `$` anchor). -/
def isCssFileAux : List Char → Bool
  | [] => false
  | c :: rest => (!isLineTerminator c && suffixMatches rest) || isCssFileAux rest

/-- Embeds `isCssFile`: whether the import path matches
`/.+\.module\.(scss|css)$/i`. -/
def isCssFile (importFilePath : String) : Bool :=
  isCssFileAux importFilePath.toList

/-- Node `path` API consumed by the rule.  Path resolution is an external
collaborator, so the two functions the rule calls are kept abstract. -/
structure PathApi where
  resolve : String → String → String
  dirname : String → String

/-- JavaScript value found under the `basePath` key of the shared settings:
either a string or some non-string value. -/
inductive JsValue where
  | str (s : String)
  | nonString
deriving DecidableEq

/-- Value stored under the plugin's key in the shared settings object. -/
structure PluginSettings where
  basePath : Option JsValue
deriving DecidableEq

/-- Shared ESLint settings object; `cssModules` is the value of its
`@jespers/css-modules` key, when that key is present. -/
structure SharedSettings where
  cssModules : Option PluginSettings
deriving DecidableEq

/-- Embeds `getBasePathSetting`: unwraps the settings object (`?? \x7b\x7d`),
reads the plugin key, and returns the `basePath` only when it is a non-empty
string (`typeof basePath === "string" && basePath`). -/
def getBasePathSetting (settings : Option SharedSettings) : Option String :=
  let pluginSettings : Option PluginSettings :=
    match settings with
    | some s => s.cssModules
    | none => none
  match pluginSettings with
  | some ps =>
    match ps.basePath with
    | some (JsValue.str s) => if !s.isEmpty then some s else none
    | _ => none
  | none => none

/-- Models the one `String.prototype.startsWith` call of the rule,
`importFilePath.startsWith(".")`: the first character is a dot. -/
def startsWithDot (s : String) : Bool :=
  match s.toList with
  | [] => false
  | c :: _ => c == '.'

/-- Embeds `resolvePhysicalCssFilePath`.  The `basePath = ""` default parameter
of the TypeScript function is rendered by `Option.getD`: the call site passes
`getBasePathSetting`, which may be `undefined`. -/
def resolvePhysicalCssFilePath (api : PathApi) (sourceFilePath importFilePath : String)
    (basePath : Option String) : String :=
  if startsWithDot importFilePath then
    api.resolve (api.dirname sourceFilePath) importFilePath
  else
    api.resolve (basePath.getD "") importFilePath

/-- Models `Set.prototype.add` on an insertion-ordered duplicate-free list. -/
def setAdd (s : List String) (x : String) : List String :=
  if x ∈ s then s else s ++ [x]

/-- Embeds `getCssFileClassNames`, applied to the walk-order list of
`ClassSelector` node names that `cssTree.walk` delivers for the stylesheet
AST: the names are collected into a `Set`. -/
def getCssFileClassNames (classSelectorNames : List String) : List String :=
  classSelectorNames.foldl setAdd []

/-- First element of the rule's options array, when present; its `markAsUsed`
field may itself be absent. -/
structure MarkAsUsedOptions where
  markAsUsed : Option (List String)
deriving DecidableEq

/-- Options value as delivered by ESLint: `none` when `context.options` is not
an array, `some none` when the array has no first element, and
`some (some opts)` otherwise. -/
abbrev RuleOptionsJs := Option (Option MarkAsUsedOptions)

/-- Embeds `getMarkAsUsedOption`: collects `options[0]?.markAsUsed` into a
`Set`, or yields the empty set when anything along that path is missing. -/
def getMarkAsUsedOption (options : RuleOptionsJs) : List String :=
  match options with
  | some (some opts) =>
    match opts.markAsUsed with
    | some l => l.foldl setAdd []
    | none => []
  | _ => []

/-- Wraps a class name in single quotes, as both message builders do. -/
def quoteClassName (className : String) : String :=
  squote ++ className ++ squote

/-- Embeds `getPrettyUnusedClassNames`: the first three names quoted and
comma-joined, and past three a `... (+K more)` tail. -/
def getPrettyUnusedClassNames (unusedClassNames : List String) : String :=
  let base := String.intercalate ", " ((unusedClassNames.take 3).map quoteClassName)
  if unusedClassNames.length ≤ 3 then base
  else base ++ "... (+" ++ toString (max 0 (unusedClassNames.length - 3)) ++ " more)"

/-- Embeds `getFixPayloadClassNames`: every name quoted and comma-joined. -/
def getFixPayloadClassNames (unusedClassNames : List String) : String :=
  String.intercalate ", " (unusedClassNames.map quoteClassName)

/-- Node of an `ImportDeclaration`, reduced to the only data the rule reads
from it: its source range. -/
structure ImportNode where
  rangeStart : Nat
  rangeEnd : Nat
deriving DecidableEq

/-- Contents of a record's optional `meta` field: the anchor import node and
the resolved stylesheet path. -/
structure MetaInfo where
  importNode : ImportNode
  cssFilePath : String
deriving DecidableEq

/-- Aggregation record kept per source file in the `files` map. -/
structure FileRec where
  availableClassNames : List String
  usedClassNames : List String
  meta : Option MetaInfo
deriving DecidableEq

/-- The `files` `Map`, as an insertion-ordered key/value list. -/
abbrev FilesMap := List (String × FileRec)

deriving instance DecidableEq for Except

/-- Models `Map.prototype.get`. -/
def findRec : FilesMap → String → Option FileRec
  | [], _ => none
  | (key, r) :: rest, p => if key = p then some r else findRec rest p

/-- Models `Map.prototype.set`: overwrites in place when the key exists,
otherwise appends at the end. -/
def setRec : FilesMap → String → FileRec → FilesMap
  | [], p, r => [(p, r)]
  | (key, r0) :: rest, p, r =>
    if key = p then (key, r) :: rest else (key, r0) :: setRec rest p r

/-- External collaborators of the import handler: the filesystem existence
check, and the composite of `fs.readFileSync`, `cssTree.parse` and the
`ClassSelector` walk.  The composite returns the walk-order list of
class-selector names, or an error when `cssTree.parse` throws. -/
structure Env where
  fileExists : String → Bool
  cssClassSelectors : String → Except Unit (List String)

/-- Per-traversal constants: the path API, `context.getFilename()` (constant
during one file's traversal) and `context.settings`. -/
structure Ctx where
  pathApi : PathApi
  sourceFilePath : String
  settings : Option SharedSettings

/-- Traversal events delivered by ESLint in document order.  A member
expression carries the property name resolved by `ASTUtils.getPropertyName`,
or `none` when that name is not statically known. -/
inductive TraversalEvent where
  | importDecl (node : ImportNode) (importFilePath : String)
  | memberExpr (propertyName : Option String)
deriving DecidableEq

/-- Embeds the `ImportDeclaration` callback.  The JavaScript code mutates the
`availableClassNames` set through a shared reference; here the updated record
is written back explicitly.  When the record already exists, only that set
changes: the freshly computed fallback `file?.meta ?? \x7b importNode,
cssFilePath \x7d` is dropped on the floor, because `files.set` runs only under
`!files.has(sourceFilePath)`. -/
def importDeclStep (env : Env) (ctx : Ctx) (files : FilesMap)
    (node : ImportNode) (importFilePath : String) : Except Unit FilesMap :=
  if isCssFile importFilePath then
    let basePath := getBasePathSetting ctx.settings
    let cssFilePath :=
      resolvePhysicalCssFilePath ctx.pathApi ctx.sourceFilePath importFilePath basePath
    if env.fileExists cssFilePath then
      match env.cssClassSelectors cssFilePath with
      | Except.error e => Except.error e
      | Except.ok selectorNames =>
        let classNames := getCssFileClassNames selectorNames
        if 0 < classNames.length then
          match findRec files ctx.sourceFilePath with
          | some file =>
            Except.ok (setRec files ctx.sourceFilePath
              { file with
                availableClassNames := classNames.foldl setAdd file.availableClassNames })
          | none =>
            Except.ok (setRec files ctx.sourceFilePath
              { availableClassNames := classNames.foldl setAdd [],
                usedClassNames := [],
                meta := some { importNode := node, cssFilePath := cssFilePath } })
        else Except.ok files
    else Except.ok files
  else Except.ok files

/-- Embeds the `MemberExpression` callback.  The empty string is skipped along
with `null`, because `if (propertyName)` tests JavaScript truthiness. -/
def memberExprStep (ctx : Ctx) (files : FilesMap)
    (propertyName : Option String) : FilesMap :=
  match propertyName with
  | none => files
  | some propName =>
    if propName.isEmpty then files
    else
      match findRec files ctx.sourceFilePath with
      | some file =>
        setRec files ctx.sourceFilePath
          { file with usedClassNames := setAdd file.usedClassNames propName }
      | none =>
        setRec files ctx.sourceFilePath
          { availableClassNames := [],
            usedClassNames := setAdd [] propName,
            meta := none }

/-- Dispatches one traversal event to its callback. -/
def stepEvent (env : Env) (ctx : Ctx) (files : FilesMap) :
    TraversalEvent → Except Unit FilesMap
  | TraversalEvent.importDecl node importFilePath =>
    importDeclStep env ctx files node importFilePath
  | TraversalEvent.memberExpr propertyName =>
    Except.ok (memberExprStep ctx files propertyName)

/-- Folds a whole traversal over the `files` map; an uncaught stylesheet parse
error aborts the run. -/
def runEvents (env : Env) (ctx : Ctx) : List TraversalEvent → FilesMap → Except Unit FilesMap
  | [], files => Except.ok files
  | e :: rest, files =>
    match stepEvent env ctx files e with
    | Except.error u => Except.error u
    | Except.ok files1 => runEvents env ctx rest files1

/-- Suggestion attached to a diagnostic: its interpolation data and the fix,
reduced to the insertion position (`importNode.range` start) and inserted
text. -/
structure SuggestionOut where
  dataClassNames : String
  fixPos : Nat
  fixText : String
deriving DecidableEq

/-- Diagnostic as handed to `context.report`, with interpolation data instead
of the rendered message templates. -/
structure DiagnosticOut where
  nodeStart : Nat
  dataClassNames : String
  dataCssFilePath : String
  suggest : List SuggestionOut
deriving DecidableEq

/-- Text of the suggested-fix directive comment before the payload. -/
def fixLineHead : String :=
  "/* eslint @jespers/css-modules/no-unused-classes: [2, \x7b markAsUsed: ["

/-- Text of the suggested-fix directive comment after the payload. -/
def fixLineTail : String := "] \x7d] */\n"

/-- Full single-line directive comment inserted by the suggested fix. -/
def fixLineFor (fixPayloadClassNames : String) : String :=
  fixLineHead ++ fixPayloadClassNames ++ fixLineTail

/-- Unused classes of one record: `availableClassNames` filtered by
`usedClassNames` and the mark-as-used set, in available order. -/
def unusedClassNamesOf (markAsUsedClassNames : List String) (r : FileRec) : List String :=
  r.availableClassNames.filter fun className =>
    !(decide (className ∈ r.usedClassNames)) &&
      !(decide (className ∈ markAsUsedClassNames))

/-- Embeds the body of the `files.forEach` in `Program:exit` for one record:
report only when some class is unused and the destructured
`meta ?? \x7b\x7d` yields a truthy `importNode` and `cssFilePath` (a present
meta whose path is a non-empty string). -/
def diagnosticFor (markAsUsedClassNames : List String) (r : FileRec) : Option DiagnosticOut :=
  let unusedClassNames := unusedClassNamesOf markAsUsedClassNames r
  if 0 < unusedClassNames.length then
    match r.meta with
    | some m =>
      if m.cssFilePath.isEmpty then none
      else
        some { nodeStart := m.importNode.rangeStart,
               dataClassNames := getPrettyUnusedClassNames unusedClassNames,
               dataCssFilePath := m.cssFilePath,
               suggest := [{ dataClassNames := getFixPayloadClassNames unusedClassNames,
                             fixPos := m.importNode.rangeStart,
                             fixText := fixLineFor (getFixPayloadClassNames unusedClassNames) }] }
    | none => none
  else none

/-- Embeds `Program:exit`: parses the mark-as-used option only when the map is
non-empty, then visits the records in map order. -/
def programExit (options : RuleOptionsJs) (files : FilesMap) : List DiagnosticOut :=
  let markAsUsedClassNames :=
    if 0 < files.length then getMarkAsUsedOption options else []
  files.filterMap fun entry => diagnosticFor markAsUsedClassNames entry.2

/-- Models `fixer.insertTextBeforeRange` on a document of characters: splices
the text in at the range start and keeps everything else. -/
def insertTextBeforeRange (doc : List Char) (rangeStart : Nat) (text : String) : List Char :=
  doc.take rangeStart ++ text.toList ++ doc.drop rangeStart

/-- Membership of a class name in the `availableClassNames` set of the record
stored for path `p`. -/
def availMem (files : FilesMap) (p x : String) : Prop :=
  ∃ r, findRec files p = some r ∧ x ∈ r.availableClassNames

/-- Membership of a class name in the `usedClassNames` set of the record
stored for path `p`. -/
def usedMem (files : FilesMap) (p x : String) : Prop :=
  ∃ r, findRec files p = some r ∧ x ∈ r.usedClassNames

/-- One event's contribution to `availableClassNames`: a qualifying import
whose stylesheet, resolved through the traversal constants, exists, parses,
and declares the class `x`. -/
def AvailContrib (env : Env) (ctx : Ctx) (e : TraversalEvent) (x : String) : Prop :=
  ∃ node importFilePath, e = TraversalEvent.importDecl node importFilePath ∧
    isCssFile importFilePath = true ∧
    env.fileExists (resolvePhysicalCssFilePath ctx.pathApi ctx.sourceFilePath
      importFilePath (getBasePathSetting ctx.settings)) = true ∧
    ∃ selectorNames,
      env.cssClassSelectors (resolvePhysicalCssFilePath ctx.pathApi ctx.sourceFilePath
        importFilePath (getBasePathSetting ctx.settings)) = Except.ok selectorNames ∧
      x ∈ getCssFileClassNames selectorNames

/-- One event's contribution to `usedClassNames`: a member expression whose
resolved property name is the (non-empty) class `x`. -/
def UsedContrib (e : TraversalEvent) (x : String) : Prop :=
  e = TraversalEvent.memberExpr (some x) ∧ x.isEmpty = false

/-- Reading of the spec sentence behind C6, to be compared with `isCssFile`:
recognition is "a case-insensitive file-extension test for a `.module.css` or
`.module.scss` suffix", i.e. a plain case-insensitive suffix match. -/
def specSuffixTest (importFilePath : String) : Bool :=
  let low := importFilePath.toList.map Char.toLower
  List.isSuffixOf ".module.css".toList low ||
    List.isSuffixOf ".module.scss".toList low

/-- Reading of the spec sentence behind C7, to be compared with the code's
`getBasePathSetting`: the base path against which non-relative specifiers are
resolved, "taken as the empty string when unset (or when the shared setting is
absent, non-string, or empty)". -/
def specBasePath (settings : Option SharedSettings) : String :=
  match settings with
  | none => ""
  | some s =>
    match s.cssModules with
    | none => ""
    | some ps =>
      match ps.basePath with
      | some (JsValue.str str) => str
      | _ => ""

/-- Fixture collaborators: every path exists and every stylesheet parses to a
single class selector named `b`. -/
def envB : Env :=
  { fileExists := fun _ => true,
    cssClassSelectors := fun _ => Except.ok ["b"] }

/-- Fixture path API: plain slash concatenation, constant directory. -/
def pathApiSlash : PathApi :=
  { resolve := fun b p => b ++ "/" ++ p,
    dirname := fun _ => "/proj" }

/-- Fixture traversal constants for a source file `/proj/App.tsx`. -/
def ctxApp : Ctx :=
  { pathApi := pathApiSlash,
    sourceFilePath := "/proj/App.tsx",
    settings := none }

/-- Fixture import declaration node. -/
def nodeImp : ImportNode := { rangeStart := 10, rangeEnd := 50 }

/-- Fixture aggregation record with one available class, nothing used, and an
anchor. -/
def recAnchored : FileRec :=
  { availableClassNames := ["b"],
    usedClassNames := [],
    meta := some { importNode := nodeImp, cssFilePath := "/proj/x.module.css" } }

/-- Map state after running the qualifying import of `./x.module.css` first
and the property access of `a` second under `envB`/`ctxApp`: the record is
created by the import, so the anchor is present. -/
def stateImportFirst : FilesMap :=
  [("/proj/App.tsx",
    { availableClassNames := ["b"], usedClassNames := ["a"],
      meta := some { importNode := nodeImp, cssFilePath := "/proj/./x.module.css" } })]

/-- Map state after running the property access of `a` first and the
qualifying import of `./x.module.css` second under `envB`/`ctxApp`: the record
pre-exists when the import arrives, so its anchor stays absent. -/
def stateMemberFirst : FilesMap :=
  [("/proj/App.tsx",
    { availableClassNames := ["b"], usedClassNames := ["a"], meta := none })]

/-- Map state after running only the qualifying import of `./x.module.css`
under `envB`/`ctxApp`. -/
def stateImportOnly : FilesMap :=
  [("/proj/App.tsx",
    { availableClassNames := ["b"], usedClassNames := [],
      meta := some { importNode := nodeImp, cssFilePath := "/proj/./x.module.css" } })]

/-- Diagnostic produced for `recAnchored` with no mark-as-used classes. -/
def diagAnchored : DiagnosticOut :=
  { nodeStart := 10,
    dataClassNames := getPrettyUnusedClassNames ["b"],
    dataCssFilePath := "/proj/x.module.css",
    suggest := [{ dataClassNames := getFixPayloadClassNames ["b"],
                  fixPos := 10,
                  fixText := fixLineFor (getFixPayloadClassNames ["b"]) }] }

/-- Membership in a set after `Set.prototype.add`. -/
theorem mem_setAdd {s : List String} {x y : String} :
    x ∈ setAdd s y ↔ x ∈ s ∨ x = y := by
  unfold setAdd
  split
  case isTrue h =>
    constructor
    · exact fun hx => Or.inl hx
    · rintro (hx | rfl)
      · exact hx
      · exact h
  case isFalse h => simp [List.mem_append]

/-- Membership after folding a list of additions into a set. -/
theorem mem_foldl_setAdd {l : List String} {s : List String} {x : String} :
    x ∈ l.foldl setAdd s ↔ x ∈ s ∨ x ∈ l := by
  induction l generalizing s with
  | nil => simp
  | cons a t ih =>
    simp only [List.foldl_cons, ih, mem_setAdd, List.mem_cons]
    tauto

/-- Lookup after `Map.prototype.set`. -/
theorem findRec_setRec (files : FilesMap) (p : String) (r : FileRec) (q : String) :
    findRec (setRec files p r) q = if p = q then some r else findRec files q := by
  induction files with
  | nil => simp [setRec, findRec]
  | cons entry rest ih =>
    obtain ⟨key, r0⟩ := entry
    by_cases hkp : key = p
    · subst hkp
      by_cases hkq : key = q <;> simp [setRec, findRec, hkq]
    · by_cases hkq : key = q
      · have hqp : ¬(q = p) := fun hh => hkp (hkq.trans hh)
        have hpq : ¬(p = q) := fun hh => hqp hh.symm
        simp [setRec, findRec, hkp, hkq, hpq, hqp]
      · simp [setRec, findRec, hkp, hkq, ih]

/-- Available-membership through a `Map.prototype.set`. -/
theorem availMem_setRec {files : FilesMap} {p0 : String} {r : FileRec} {p x : String} :
    availMem (setRec files p0 r) p x ↔
      (p0 = p ∧ x ∈ r.availableClassNames) ∨ (p0 ≠ p ∧ availMem files p x) := by
  unfold availMem
  rw [findRec_setRec]
  by_cases h : p0 = p
  · subst h; simp
  · simp [h]

/-- Used-membership through a `Map.prototype.set`. -/
theorem usedMem_setRec {files : FilesMap} {p0 : String} {r : FileRec} {p x : String} :
    usedMem (setRec files p0 r) p x ↔
      (p0 = p ∧ x ∈ r.usedClassNames) ∨ (p0 ≠ p ∧ usedMem files p x) := by
  unfold usedMem
  rw [findRec_setRec]
  by_cases h : p0 = p
  · subst h; simp
  · simp [h]

/-- Unfolds `AvailContrib` at an import event. -/
theorem availContrib_import_iff {env : Env} {ctx : Ctx} {node : ImportNode}
    {importFilePath : String} {x : String} :
    AvailContrib env ctx (TraversalEvent.importDecl node importFilePath) x ↔
      (isCssFile importFilePath = true ∧
        env.fileExists (resolvePhysicalCssFilePath ctx.pathApi ctx.sourceFilePath
          importFilePath (getBasePathSetting ctx.settings)) = true ∧
        ∃ selectorNames,
          env.cssClassSelectors (resolvePhysicalCssFilePath ctx.pathApi ctx.sourceFilePath
            importFilePath (getBasePathSetting ctx.settings)) = Except.ok selectorNames ∧
          x ∈ getCssFileClassNames selectorNames) := by
  unfold AvailContrib
  constructor
  · rintro ⟨n, s, heq, h1, h2, h3⟩
    injection heq with hn hs
    subst hn
    subst hs
    exact ⟨h1, h2, h3⟩
  · rintro ⟨h1, h2, h3⟩
    exact ⟨node, importFilePath, rfl, h1, h2, h3⟩

/-- Member-expression events never contribute available classes. -/
theorem availContrib_member {env : Env} {ctx : Ctx} {propertyName : Option String}
    {x : String} :
    ¬ AvailContrib env ctx (TraversalEvent.memberExpr propertyName) x := by
  rintro ⟨n, s, heq, _⟩
  exact absurd heq (by simp)

/-- Unfolds `UsedContrib` at a member-expression event. -/
theorem usedContrib_member_iff {propertyName : Option String} {x : String} :
    UsedContrib (TraversalEvent.memberExpr propertyName) x ↔
      (propertyName = some x ∧ x.isEmpty = false) := by
  unfold UsedContrib
  constructor
  · rintro ⟨heq, hne⟩
    injection heq with hp
    exact ⟨hp, hne⟩
  · rintro ⟨heq, hne⟩
    subst heq
    exact ⟨rfl, hne⟩

/-- Import events never contribute used classes. -/
theorem usedContrib_import {node : ImportNode} {importFilePath : String} {x : String} :
    ¬ UsedContrib (TraversalEvent.importDecl node importFilePath) x := by
  rintro ⟨heq, _⟩
  exact absurd heq (by simp)

/-- Available-membership when the lookup succeeds. -/
theorem availMem_findRec_some {files : FilesMap} {p : String} {r : FileRec}
    (hf : findRec files p = some r) (x : String) :
    availMem files p x ↔ x ∈ r.availableClassNames := by
  unfold availMem
  rw [hf]
  simp

/-- Available-membership when the lookup fails. -/
theorem availMem_findRec_none {files : FilesMap} {p : String}
    (hf : findRec files p = none) (x : String) :
    ¬ availMem files p x := by
  unfold availMem
  rw [hf]
  simp

/-- Used-membership when the lookup succeeds. -/
theorem usedMem_findRec_some {files : FilesMap} {p : String} {r : FileRec}
    (hf : findRec files p = some r) (x : String) :
    usedMem files p x ↔ x ∈ r.usedClassNames := by
  unfold usedMem
  rw [hf]
  simp

/-- Used-membership when the lookup fails. -/
theorem usedMem_findRec_none {files : FilesMap} {p : String}
    (hf : findRec files p = none) (x : String) :
    ¬ usedMem files p x := by
  unfold usedMem
  rw [hf]
  simp

/-- Case analysis of a successful `ImportDeclaration` callback: either the map
is unchanged and the event contributes no available class, or the import
qualified all the way and rewrote the current file's record, in update mode or
in creation mode. -/
theorem importDeclStep_cases {env : Env} {ctx : Ctx} {files : FilesMap}
    {node : ImportNode} {importFilePath : String} {files' : FilesMap}
    (h : importDeclStep env ctx files node importFilePath = Except.ok files') :
    (files' = files ∧
      ∀ y, ¬ AvailContrib env ctx (TraversalEvent.importDecl node importFilePath) y) ∨
    (∃ selectorNames,
      isCssFile importFilePath = true ∧
      env.fileExists (resolvePhysicalCssFilePath ctx.pathApi ctx.sourceFilePath
        importFilePath (getBasePathSetting ctx.settings)) = true ∧
      env.cssClassSelectors (resolvePhysicalCssFilePath ctx.pathApi ctx.sourceFilePath
        importFilePath (getBasePathSetting ctx.settings)) = Except.ok selectorNames ∧
      0 < (getCssFileClassNames selectorNames).length ∧
      ((∃ file, findRec files ctx.sourceFilePath = some file ∧
          files' = setRec files ctx.sourceFilePath
            { file with
                availableClassNames := (getCssFileClassNames selectorNames).foldl setAdd file.availableClassNames }) ∨
        (findRec files ctx.sourceFilePath = none ∧
          files' = setRec files ctx.sourceFilePath
            { availableClassNames := (getCssFileClassNames selectorNames).foldl setAdd [],
              usedClassNames := [],
              meta := some { importNode := node,
                             cssFilePath := resolvePhysicalCssFilePath ctx.pathApi
                               ctx.sourceFilePath importFilePath
                               (getBasePathSetting ctx.settings) } }))) := by
  unfold importDeclStep at h
  by_cases hcss : isCssFile importFilePath = true
  case neg =>
    rw [if_neg hcss] at h
    injection h with h1
    refine Or.inl ⟨h1.symm, fun y hy => ?_⟩
    rw [availContrib_import_iff] at hy
    exact hcss hy.1
  case pos =>
    rw [if_pos hcss] at h
    by_cases hex : env.fileExists (resolvePhysicalCssFilePath ctx.pathApi ctx.sourceFilePath
        importFilePath (getBasePathSetting ctx.settings)) = true
    case neg =>
      rw [if_neg hex] at h
      injection h with h1
      refine Or.inl ⟨h1.symm, fun y hy => ?_⟩
      rw [availContrib_import_iff] at hy
      exact hex hy.2.1
    case pos =>
      rw [if_pos hex] at h
      cases hsel : env.cssClassSelectors (resolvePhysicalCssFilePath ctx.pathApi
          ctx.sourceFilePath importFilePath (getBasePathSetting ctx.settings)) with
      | error e =>
        simp only [hsel] at h
        exact absurd h (by simp)
      | ok selectorNames =>
        simp only [hsel] at h
        by_cases hlen : 0 < (getCssFileClassNames selectorNames).length
        case neg =>
          rw [if_neg hlen] at h
          injection h with h1
          refine Or.inl ⟨h1.symm, fun y hy => ?_⟩
          rw [availContrib_import_iff] at hy
          obtain ⟨_, _, sel', hsel', hmem⟩ := hy
          rw [hsel] at hsel'
          injection hsel' with he
          subst he
          exact hlen (List.length_pos_of_mem hmem)
        case pos =>
          rw [if_pos hlen] at h
          cases hfind : findRec files ctx.sourceFilePath with
          | some file =>
            simp only [hfind] at h
            injection h with h1
            exact Or.inr ⟨selectorNames, hcss, hex, rfl, hlen,
              Or.inl ⟨file, rfl, h1.symm⟩⟩
          | none =>
            simp only [hfind] at h
            injection h with h1
            exact Or.inr ⟨selectorNames, hcss, hex, rfl, hlen, Or.inr ⟨rfl, h1.symm⟩⟩

/-- Contribution of an import event, given the stylesheet lookup facts. -/
theorem availContrib_resolved_iff {env : Env} {ctx : Ctx} {node : ImportNode}
    {importFilePath : String} {selectorNames : List String} {x : String}
    (hcss : isCssFile importFilePath = true)
    (hex : env.fileExists (resolvePhysicalCssFilePath ctx.pathApi ctx.sourceFilePath
      importFilePath (getBasePathSetting ctx.settings)) = true)
    (hsel : env.cssClassSelectors (resolvePhysicalCssFilePath ctx.pathApi ctx.sourceFilePath
      importFilePath (getBasePathSetting ctx.settings)) = Except.ok selectorNames) :
    AvailContrib env ctx (TraversalEvent.importDecl node importFilePath) x ↔
      x ∈ getCssFileClassNames selectorNames := by
  rw [availContrib_import_iff]
  constructor
  · rintro ⟨_, _, sel', hsel', hmem⟩
    rw [hsel] at hsel'
    injection hsel' with he
    subst he
    exact hmem
  · intro hmem
    exact ⟨hcss, hex, selectorNames, hsel, hmem⟩

/-- Effect of one `ImportDeclaration` callback on available-set membership. -/
theorem importDeclStep_availMem {env : Env} {ctx : Ctx} {files : FilesMap}
    {node : ImportNode} {importFilePath : String} {files' : FilesMap}
    (h : importDeclStep env ctx files node importFilePath = Except.ok files')
    (p x : String) :
    availMem files' p x ↔
      availMem files p x ∨
        (p = ctx.sourceFilePath ∧
          AvailContrib env ctx (TraversalEvent.importDecl node importFilePath) x) := by
  rcases importDeclStep_cases h with ⟨rfl, hnc⟩ |
    ⟨sel, hcss, hex, hsel, hlen, ⟨file, hfind, rfl⟩ | ⟨hfind, rfl⟩⟩
  · constructor
    · exact Or.inl
    · rintro (hh | ⟨_, hc⟩)
      · exact hh
      · exact absurd hc (hnc x)
  · rw [availMem_setRec]
    rw [availContrib_resolved_iff hcss hex hsel]
    by_cases hp : p = ctx.sourceFilePath
    · subst hp
      rw [availMem_findRec_some hfind]
      simp only [mem_foldl_setAdd]
      tauto
    · have hp' : ¬(ctx.sourceFilePath = p) := fun hh => hp hh.symm
      simp [hp, hp']
  · rw [availMem_setRec]
    rw [availContrib_resolved_iff hcss hex hsel]
    by_cases hp : p = ctx.sourceFilePath
    · subst hp
      have hno := availMem_findRec_none hfind x
      simp only [mem_foldl_setAdd, List.not_mem_nil, false_or]
      tauto
    · have hp' : ¬(ctx.sourceFilePath = p) := fun hh => hp hh.symm
      simp [hp, hp']

/-- An `ImportDeclaration` callback never changes used-set membership. -/
theorem importDeclStep_usedMem {env : Env} {ctx : Ctx} {files : FilesMap}
    {node : ImportNode} {importFilePath : String} {files' : FilesMap}
    (h : importDeclStep env ctx files node importFilePath = Except.ok files')
    (p x : String) :
    usedMem files' p x ↔ usedMem files p x := by
  rcases importDeclStep_cases h with ⟨rfl, _⟩ |
    ⟨sel, hcss, hex, hsel, hlen, ⟨file, hfind, rfl⟩ | ⟨hfind, rfl⟩⟩
  · exact Iff.rfl
  · rw [usedMem_setRec]
    by_cases hp : p = ctx.sourceFilePath
    · subst hp
      rw [usedMem_findRec_some hfind]
      tauto
    · have hp' : ¬(ctx.sourceFilePath = p) := fun hh => hp hh.symm
      simp [hp, hp']
  · rw [usedMem_setRec]
    by_cases hp : p = ctx.sourceFilePath
    · subst hp
      have hno := usedMem_findRec_none hfind x
      simp only [List.not_mem_nil, and_false, false_or]
      tauto
    · have hp' : ¬(ctx.sourceFilePath = p) := fun hh => hp hh.symm
      simp [hp, hp']

/-- Member events with an unresolvable name contribute nothing. -/
theorem usedContrib_none {x : String} :
    ¬ UsedContrib (TraversalEvent.memberExpr none) x := by
  rintro ⟨heq, _⟩
  injection heq with he
  exact Option.noConfusion he

/-- Member events with an empty property name contribute nothing (JavaScript
truthiness skips the empty string). -/
theorem usedContrib_some_empty {propName x : String} (hq : propName.isEmpty = true) :
    ¬ UsedContrib (TraversalEvent.memberExpr (some propName)) x := by
  rintro ⟨heq, hne⟩
  injection heq with he
  injection he with he2
  subst he2
  rw [hq] at hne
  exact Bool.noConfusion hne

/-- Member events with a non-empty property name contribute exactly that name. -/
theorem usedContrib_some_iff {propName x : String} (hf : propName.isEmpty = false) :
    UsedContrib (TraversalEvent.memberExpr (some propName)) x ↔ x = propName := by
  rw [usedContrib_member_iff]
  constructor
  · rintro ⟨heq, _⟩
    injection heq with he
    exact he.symm
  · rintro rfl
    exact ⟨rfl, hf⟩

/-- A `MemberExpression` callback never changes available-set membership. -/
theorem memberExprStep_availMem {ctx : Ctx} {files : FilesMap}
    {propertyName : Option String} (p x : String) :
    availMem (memberExprStep ctx files propertyName) p x ↔ availMem files p x := by
  cases propertyName with
  | none => exact Iff.rfl
  | some propName =>
    simp only [memberExprStep]
    by_cases hempty : propName.isEmpty = true
    · rw [if_pos hempty]
    · rw [if_neg hempty]
      split
      next file heq =>
        rw [availMem_setRec]
        by_cases hp : ctx.sourceFilePath = p
        · subst hp
          simp [availMem_findRec_some heq]
        · simp [hp]
      next heq =>
        rw [availMem_setRec]
        by_cases hp : ctx.sourceFilePath = p
        · subst hp
          simp [availMem_findRec_none heq x]
        · simp [hp]

/-- Effect of one `MemberExpression` callback on used-set membership. -/
theorem memberExprStep_usedMem {ctx : Ctx} {files : FilesMap}
    {propertyName : Option String} (p x : String) :
    usedMem (memberExprStep ctx files propertyName) p x ↔
      usedMem files p x ∨
        (p = ctx.sourceFilePath ∧
          UsedContrib (TraversalEvent.memberExpr propertyName) x) := by
  cases propertyName with
  | none =>
    constructor
    · exact Or.inl
    · rintro (hh | ⟨_, hc⟩)
      · exact hh
      · exact absurd hc usedContrib_none
  | some propName =>
    simp only [memberExprStep]
    by_cases hempty : propName.isEmpty = true
    · rw [if_pos hempty]
      constructor
      · exact Or.inl
      · rintro (hh | ⟨_, hc⟩)
        · exact hh
        · exact absurd hc (usedContrib_some_empty hempty)
    · rw [if_neg hempty]
      have hf : propName.isEmpty = false := by
        cases hh : propName.isEmpty
        · rfl
        · exact absurd hh hempty
      split
      next file heq =>
        rw [usedMem_setRec]
        by_cases hp : ctx.sourceFilePath = p
        · subst hp
          simp only [usedMem_findRec_some heq, usedContrib_some_iff hf, mem_setAdd]
          tauto
        · have hp' : ¬(p = ctx.sourceFilePath) := fun hh => hp hh.symm
          simp [hp, hp']
      next heq =>
        rw [usedMem_setRec]
        by_cases hp : ctx.sourceFilePath = p
        · subst hp
          simp only [usedMem_findRec_none heq x, usedContrib_some_iff hf, mem_setAdd]
          simp
        · have hp' : ¬(p = ctx.sourceFilePath) := fun hh => hp hh.symm
          simp [hp, hp']

/-- Available-membership after a whole successful traversal: the starting
membership joined with the contributions of the traversal's events. -/
theorem runEvents_availMem {env : Env} {ctx : Ctx} {evs : List TraversalEvent}
    {files files' : FilesMap}
    (h : runEvents env ctx evs files = Except.ok files') (p x : String) :
    availMem files' p x ↔
      availMem files p x ∨
        (p = ctx.sourceFilePath ∧ ∃ e ∈ evs, AvailContrib env ctx e x) := by
  induction evs generalizing files with
  | nil =>
    unfold runEvents at h
    injection h with h1
    subst h1
    simp
  | cons e rest ih =>
    unfold runEvents at h
    cases hstep : stepEvent env ctx files e with
    | error u =>
      simp only [hstep] at h
      exact absurd h (by simp)
    | ok files1 =>
      simp only [hstep] at h
      rw [ih h]
      cases e with
      | importDecl node ifp =>
        have hs : importDeclStep env ctx files node ifp = Except.ok files1 := hstep
        rw [importDeclStep_availMem hs p x]
        constructor
        · rintro ((hh | ⟨hp, hc⟩) | ⟨hp, e', he', hc⟩)
          · exact Or.inl hh
          · exact Or.inr ⟨hp, TraversalEvent.importDecl node ifp,
              List.mem_cons_self _ _, hc⟩
          · exact Or.inr ⟨hp, e', List.mem_cons_of_mem _ he', hc⟩
        · rintro (hh | ⟨hp, e', he', hc⟩)
          · exact Or.inl (Or.inl hh)
          · rcases List.mem_cons.mp he' with rfl | hmem
            · exact Or.inl (Or.inr ⟨hp, hc⟩)
            · exact Or.inr ⟨hp, e', hmem, hc⟩
      | memberExpr pn =>
        have hs : Except.ok (memberExprStep ctx files pn) = Except.ok files1 := hstep
        injection hs with hs1
        subst hs1
        rw [memberExprStep_availMem p x]
        constructor
        · rintro (hh | ⟨hp, e', he', hc⟩)
          · exact Or.inl hh
          · exact Or.inr ⟨hp, e', List.mem_cons_of_mem _ he', hc⟩
        · rintro (hh | ⟨hp, e', he', hc⟩)
          · exact Or.inl hh
          · rcases List.mem_cons.mp he' with rfl | hmem
            · exact absurd hc availContrib_member
            · exact Or.inr ⟨hp, e', hmem, hc⟩

/-- Used-membership after a whole successful traversal. -/
theorem runEvents_usedMem {env : Env} {ctx : Ctx} {evs : List TraversalEvent}
    {files files' : FilesMap}
    (h : runEvents env ctx evs files = Except.ok files') (p x : String) :
    usedMem files' p x ↔
      usedMem files p x ∨
        (p = ctx.sourceFilePath ∧ ∃ e ∈ evs, UsedContrib e x) := by
  induction evs generalizing files with
  | nil =>
    unfold runEvents at h
    injection h with h1
    subst h1
    simp
  | cons e rest ih =>
    unfold runEvents at h
    cases hstep : stepEvent env ctx files e with
    | error u =>
      simp only [hstep] at h
      exact absurd h (by simp)
    | ok files1 =>
      simp only [hstep] at h
      rw [ih h]
      cases e with
      | importDecl node ifp =>
        have hs : importDeclStep env ctx files node ifp = Except.ok files1 := hstep
        rw [importDeclStep_usedMem hs p x]
        constructor
        · rintro (hh | ⟨hp, e', he', hc⟩)
          · exact Or.inl hh
          · exact Or.inr ⟨hp, e', List.mem_cons_of_mem _ he', hc⟩
        · rintro (hh | ⟨hp, e', he', hc⟩)
          · exact Or.inl hh
          · rcases List.mem_cons.mp he' with rfl | hmem
            · exact absurd hc usedContrib_import
            · exact Or.inr ⟨hp, e', hmem, hc⟩
      | memberExpr pn =>
        have hs : Except.ok (memberExprStep ctx files pn) = Except.ok files1 := hstep
        injection hs with hs1
        subst hs1
        rw [memberExprStep_usedMem p x]
        constructor
        · rintro ((hh | ⟨hp, hc⟩) | ⟨hp, e', he', hc⟩)
          · exact Or.inl hh
          · exact Or.inr ⟨hp, TraversalEvent.memberExpr pn, List.mem_cons_self _ _, hc⟩
          · exact Or.inr ⟨hp, e', List.mem_cons_of_mem _ he', hc⟩
        · rintro (hh | ⟨hp, e', he', hc⟩)
          · exact Or.inl (Or.inl hh)
          · rcases List.mem_cons.mp he' with rfl | hmem
            · exact Or.inl (Or.inr ⟨hp, hc⟩)
            · exact Or.inr ⟨hp, e', hmem, hc⟩

/-- Claim C2: at finalization the computed unused list is exactly the
subtraction `availableClassNames − usedClassNames − markAsUsed`, kept in the
iteration order of `availableClassNames` (it is a sublist of it); every member
of the unused list is available, and none of them is used or marked as used. -/
theorem unused_subtraction_correct (markAsUsedClassNames : List String) (r : FileRec) :
    (unusedClassNamesOf markAsUsedClassNames r).Sublist r.availableClassNames ∧
    ∀ x, x ∈ unusedClassNamesOf markAsUsedClassNames r ↔
      (x ∈ r.availableClassNames ∧ x ∉ r.usedClassNames ∧ x ∉ markAsUsedClassNames) := by
  constructor
  · exact List.filter_sublist r.availableClassNames
  · intro x
    unfold unusedClassNamesOf
    rw [List.mem_filter]
    simp [Bool.and_eq_true, Bool.not_eq_true', and_assoc]

/-- Claim C3: for a non-empty unused list, the pretty summary comma-joins the
first `min 3 |l|` names in single quotes, and appends the `... (+K more)` tail
exactly when the list has more than three entries, with `K = |l| − 3`. -/
theorem pretty_summary_truncation (l : List String) (h : l ≠ []) :
    getPrettyUnusedClassNames l =
      (if 3 < l.length then
        String.intercalate ", " ((l.take 3).map quoteClassName) ++ "... (+" ++
          toString (l.length - 3) ++ " more)"
      else String.intercalate ", " ((l.take 3).map quoteClassName)) ∧
    ((l.take 3).map quoteClassName).length = min 3 l.length := by
  constructor
  · unfold getPrettyUnusedClassNames
    by_cases hle : l.length ≤ 3
    · rw [if_pos hle, if_neg (by omega)]
    · rw [if_neg hle, if_pos (by omega), Nat.zero_max]
  · rw [List.length_map, List.length_take]

/-- Claim C3 witness, at a concrete five-element list. -/
theorem pretty_summary_truncation_witness :
    (["a", "b", "c", "d", "e"] : List String) ≠ [] ∧
    (getPrettyUnusedClassNames ["a", "b", "c", "d", "e"] =
      (if 3 < (["a", "b", "c", "d", "e"] : List String).length then
        String.intercalate ", "
            (((["a", "b", "c", "d", "e"] : List String).take 3).map quoteClassName) ++
          "... (+" ++ toString ((["a", "b", "c", "d", "e"] : List String).length - 3) ++
          " more)"
      else
        String.intercalate ", "
          (((["a", "b", "c", "d", "e"] : List String).take 3).map quoteClassName)) ∧
    (((["a", "b", "c", "d", "e"] : List String).take 3).map quoteClassName).length =
      min 3 (["a", "b", "c", "d", "e"] : List String).length) :=
  ⟨by decide, pretty_summary_truncation ["a", "b", "c", "d", "e"] (by decide)⟩

/-- Claim C8: a record whose unused list is empty, or whose anchor is absent,
or (in particular) whose `availableClassNames` is empty, emits no diagnostic
at finalization. -/
theorem no_diagnostic_without_unused_or_anchor (markAsUsedClassNames : List String)
    (r : FileRec)
    (h : unusedClassNamesOf markAsUsedClassNames r = [] ∨ r.meta = none ∨
      r.availableClassNames = []) :
    diagnosticFor markAsUsedClassNames r = none := by
  have hcase : unusedClassNamesOf markAsUsedClassNames r = [] ∨ r.meta = none := by
    rcases h with h1 | h2 | h3
    · exact Or.inl h1
    · exact Or.inr h2
    · refine Or.inl ?_
      unfold unusedClassNamesOf
      rw [h3]
      rfl
  simp only [diagnosticFor]
  rcases hcase with h1 | h2
  · simp [h1]
  · simp [h2]

/-- Claim C8 witness: the record for a file that collected one available class
and one used class but never an anchor (the state of `stateMemberFirst`)
reports nothing, although the class `b` is unused. -/
theorem no_diagnostic_without_unused_or_anchor_witness :
    diagnosticFor []
      { availableClassNames := ["b"], usedClassNames := ["a"], meta := none } = none :=
  no_diagnostic_without_unused_or_anchor []
    { availableClassNames := ["b"], usedClassNames := ["a"], meta := none }
    (Or.inr (Or.inl rfl))

/-- Claim C9: whenever a successful import callback changes the map at all,
the import satisfied all three conditions — recognized suffix, existing
resolved file, and a stylesheet that parsed and declared at least one class;
contrapositively, an import failing any of them contributes nothing and
creates no record. -/
theorem available_gains_require_qualifying_import (env : Env) (ctx : Ctx)
    (files : FilesMap) (node : ImportNode) (importFilePath : String)
    (files' : FilesMap)
    (hok : importDeclStep env ctx files node importFilePath = Except.ok files')
    (hch : files' ≠ files) :
    isCssFile importFilePath = true ∧
    env.fileExists (resolvePhysicalCssFilePath ctx.pathApi ctx.sourceFilePath
      importFilePath (getBasePathSetting ctx.settings)) = true ∧
    ∃ selectorNames,
      env.cssClassSelectors (resolvePhysicalCssFilePath ctx.pathApi ctx.sourceFilePath
        importFilePath (getBasePathSetting ctx.settings)) = Except.ok selectorNames ∧
      getCssFileClassNames selectorNames ≠ [] := by
  rcases importDeclStep_cases hok with ⟨heq, _⟩ | ⟨sel, hcss, hex, hsel, hlen, _⟩
  · exact absurd heq hch
  · refine ⟨hcss, hex, sel, hsel, fun hnil => ?_⟩
    rw [hnil] at hlen
    exact absurd hlen (by simp)

/-- Claim C9 witness: the qualifying import of `./x.module.css` on the empty
map creates `stateImportOnly`, and the three conditions indeed hold. -/
theorem available_gains_require_qualifying_import_witness :
    isCssFile "./x.module.css" = true ∧
    envB.fileExists (resolvePhysicalCssFilePath ctxApp.pathApi ctxApp.sourceFilePath
      "./x.module.css" (getBasePathSetting ctxApp.settings)) = true := by
  obtain ⟨h1, h2, _⟩ := available_gains_require_qualifying_import envB ctxApp []
    nodeImp "./x.module.css" stateImportOnly (by decide) (by decide)
  exact ⟨h1, h2⟩

/-- Claim C10: a specifier that is exactly `.module.css` or `.module.scss` is
not recognized (the regexp demands at least one character before the suffix),
and an import carrying such a specifier leaves the aggregation map untouched. -/
theorem bare_module_suffix_not_recognized :
    isCssFile ".module.css" = false ∧ isCssFile ".module.scss" = false ∧
    ∀ (env : Env) (ctx : Ctx) (files : FilesMap) (node : ImportNode),
      importDeclStep env ctx files node ".module.css" = Except.ok files ∧
      importDeclStep env ctx files node ".module.scss" = Except.ok files := by
  refine ⟨by decide, by decide, fun env ctx files node => ⟨?_, ?_⟩⟩
  · unfold importDeclStep
    rw [if_neg (show ¬(isCssFile ".module.css" = true) by decide)]
  · unfold importDeclStep
    rw [if_neg (show ¬(isCssFile ".module.scss" = true) by decide)]

/-- Claim C1, failing evaluation: a property access (`styles.a`) creates the
record before any qualifying import; the later qualifying import of
`./x.module.css` (whose stylesheet exists, parses, and declares the class `b`)
unions the class in but never stores the freshly computed anchor — the record
ends with `meta = none` — and finalization therefore emits nothing although
`b` is unused.  The claim says this first qualifying import sets the anchor
even when the record already exists. -/
theorem anchor_not_set_on_preexisting_record :
    runEvents envB ctxApp
        [TraversalEvent.memberExpr (some "a"),
         TraversalEvent.importDecl nodeImp "./x.module.css"] [] =
      Except.ok stateMemberFirst ∧
    (stateMemberFirst.map fun entry => entry.2.meta) = [none] ∧
    programExit (some (some { markAsUsed := some [] })) stateMemberFirst = [] := by
  refine ⟨by decide, by decide, by decide⟩

/-- Empty maps hold no available classes. -/
theorem availMem_nil {p x : String} : ¬ availMem ([] : FilesMap) p x :=
  @availMem_findRec_none [] p rfl x

/-- Empty maps hold no used classes. -/
theorem usedMem_nil {p x : String} : ¬ usedMem ([] : FilesMap) p x :=
  @usedMem_findRec_none [] p rfl x

/-- Claim C5: two successful traversals over permuted event lists of the same
file end with records of identical `availableClassNames` and `usedClassNames`
memberships — event order affects only intermediate state. -/
theorem final_sets_order_independent (env : Env) (ctx : Ctx)
    (evs1 evs2 : List TraversalEvent) (s1 s2 : FilesMap)
    (hperm : evs1.Perm evs2)
    (h1 : runEvents env ctx evs1 [] = Except.ok s1)
    (h2 : runEvents env ctx evs2 [] = Except.ok s2)
    (p x : String) :
    (availMem s1 p x ↔ availMem s2 p x) ∧ (usedMem s1 p x ↔ usedMem s2 p x) := by
  constructor
  · rw [runEvents_availMem h1 p x, runEvents_availMem h2 p x]
    constructor
    · rintro (hh | ⟨hp, e, he, hc⟩)
      · exact absurd hh availMem_nil
      · exact Or.inr ⟨hp, e, hperm.mem_iff.mp he, hc⟩
    · rintro (hh | ⟨hp, e, he, hc⟩)
      · exact absurd hh availMem_nil
      · exact Or.inr ⟨hp, e, hperm.mem_iff.mpr he, hc⟩
  · rw [runEvents_usedMem h1 p x, runEvents_usedMem h2 p x]
    constructor
    · rintro (hh | ⟨hp, e, he, hc⟩)
      · exact absurd hh usedMem_nil
      · exact Or.inr ⟨hp, e, hperm.mem_iff.mp he, hc⟩
    · rintro (hh | ⟨hp, e, he, hc⟩)
      · exact absurd hh usedMem_nil
      · exact Or.inr ⟨hp, e, hperm.mem_iff.mpr he, hc⟩

/-- Claim C5 witness: swapping the qualifying import and the property access
leaves the final set memberships of the record identical (even though the
anchors differ). -/
theorem final_sets_order_independent_witness :
    (availMem stateImportFirst "/proj/App.tsx" "b" ↔
      availMem stateMemberFirst "/proj/App.tsx" "b") ∧
    (usedMem stateImportFirst "/proj/App.tsx" "b" ↔
      usedMem stateMemberFirst "/proj/App.tsx" "b") :=
  final_sets_order_independent envB ctxApp
    [TraversalEvent.importDecl nodeImp "./x.module.css",
     TraversalEvent.memberExpr (some "a")]
    [TraversalEvent.memberExpr (some "a"),
     TraversalEvent.importDecl nodeImp "./x.module.css"]
    stateImportFirst stateMemberFirst
    (List.Perm.swap (TraversalEvent.memberExpr (some "a"))
      (TraversalEvent.importDecl nodeImp "./x.module.css") [])
    (by decide) (by decide) "/proj/App.tsx" "b"

/-- Claim C6 counterexample: the bare suffix `.module.css` and the specifier
`a\n.module.css` both pass a plain case-insensitive suffix test, yet
`isCssFile` rejects them, because the regexp `/.+\.module\.(scss|css)$/i`
demands a non-line-terminator character right before the suffix. -/
theorem suffix_test_counterexample :
    specSuffixTest ".module.css" = true ∧ isCssFile ".module.css" = false ∧
    specSuffixTest "a\n.module.css" = true ∧ isCssFile "a\n.module.css" = false := by
  refine ⟨by decide, by decide, by decide, by decide⟩

/-- Characterization of the regexp test on character lists. -/
theorem isCssFileAux_characterization (l : List Char) :
    isCssFileAux l = true ↔
      ∃ (a : List Char) (c : Char) (t : List Char),
        l = a ++ c :: t ∧ isLineTerminator c = false ∧ suffixMatches t = true := by
  induction l with
  | nil =>
    constructor
    · intro hh
      exact absurd hh (by simp [isCssFileAux])
    · rintro ⟨a, c, t, heq, _, _⟩
      simp at heq
  | cons d rest ih =>
    constructor
    · intro hh
      unfold isCssFileAux at hh
      rcases (Bool.or_eq_true _ _).mp hh with hdl | hrec
      · obtain ⟨hnl, hsm⟩ := (Bool.and_eq_true _ _).mp hdl
        refine ⟨[], d, rest, rfl, ?_, hsm⟩
        simpa using hnl
      · obtain ⟨a, c, t, heq, hh1, hh2⟩ := ih.mp hrec
        exact ⟨d :: a, c, t, by rw [heq, List.cons_append], hh1, hh2⟩
    · rintro ⟨a, c, t, heq, hh1, hh2⟩
      unfold isCssFileAux
      rw [Bool.or_eq_true]
      cases a with
      | nil =>
        simp only [List.nil_append] at heq
        injection heq with hd hl
        subst hd
        subst hl
        left
        rw [Bool.and_eq_true]
        exact ⟨by simp [hh1], hh2⟩
      | cons a0 arest =>
        simp only [List.cons_append] at heq
        injection heq with hd hl
        right
        exact ih.mpr ⟨arest, c, t, hl, hh1, hh2⟩

/-- Claim C6 amended: an import specifier is recognized as a stylesheet module
iff its character sequence ends in a case-insensitive `.module.css` or
`.module.scss` suffix that is immediately preceded by at least one character
which is not a line terminator; any other specifier — including a bare-suffix
one, one with only a line terminator before the suffix, or one with a plain
`.css` suffix — is ignored. -/
theorem isCssFile_characterization (importFilePath : String) :
    isCssFile importFilePath = true ↔
      ∃ (a : List Char) (c : Char) (t : List Char),
        importFilePath.toList = a ++ c :: t ∧
        isLineTerminator c = false ∧ suffixMatches t = true := by
  unfold isCssFile
  exact isCssFileAux_characterization importFilePath.toList

/-- Claim C7: a dot-relative specifier resolves against the importing file's
directory; any other specifier resolves against the configured base path,
which is read as the empty string when the shared setting is absent,
non-string, or empty (`specBasePath` spells out that spec-side reading). -/
theorem resolve_physical_path_spec (api : PathApi)
    (sourceFilePath importFilePath : String) (settings : Option SharedSettings) :
    resolvePhysicalCssFilePath api sourceFilePath importFilePath
        (getBasePathSetting settings) =
      (if startsWithDot importFilePath then
        api.resolve (api.dirname sourceFilePath) importFilePath
      else api.resolve (specBasePath settings) importFilePath) := by
  have hbase : (getBasePathSetting settings).getD "" = specBasePath settings := by
    unfold getBasePathSetting specBasePath
    cases settings with
    | none => rfl
    | some s =>
      obtain ⟨cm⟩ := s
      cases cm with
      | none => rfl
      | some ps =>
        obtain ⟨bp⟩ := ps
        cases bp with
        | none => rfl
        | some v =>
          cases v with
          | nonString => rfl
          | str str =>
            by_cases hstr : str.isEmpty = true
            · have hnil : str = "" := (String.isEmpty_iff str).mp hstr
              subst hnil
              rfl
            · have hb : (!str.isEmpty) = true := by
                cases hq : str.isEmpty
                · rfl
                · exact absurd hq hstr
              simp only [hb, if_true]
              rfl
  unfold resolvePhysicalCssFilePath
  by_cases hdot : startsWithDot importFilePath = true
  · rw [if_pos hdot, if_pos hdot]
  · rw [if_neg hdot, if_neg hdot, hbase]

/-- Claim C4: every emitted diagnostic carries exactly one suggestion; its
payload and inserted directive line quote and join every member of the unused
list (never truncated, unlike the summary); the fix inserts that single line
at the anchor import's range start, and splicing it in modifies nothing else
of the document. -/
theorem fix_suggestion_complete (markAsUsedClassNames : List String) (r : FileRec)
    (d : DiagnosticOut) (h : diagnosticFor markAsUsedClassNames r = some d) :
    ∃ m, r.meta = some m ∧
      d.suggest =
        [{ dataClassNames := getFixPayloadClassNames
             (unusedClassNamesOf markAsUsedClassNames r),
           fixPos := m.importNode.rangeStart,
           fixText := fixLineFor (getFixPayloadClassNames
             (unusedClassNamesOf markAsUsedClassNames r)) }] ∧
      getFixPayloadClassNames (unusedClassNamesOf markAsUsedClassNames r) =
        String.intercalate ", "
          ((unusedClassNamesOf markAsUsedClassNames r).map quoteClassName) ∧
      ∀ (doc : List Char) (s : SuggestionOut), s ∈ d.suggest →
        insertTextBeforeRange doc s.fixPos s.fixText =
          doc.take s.fixPos ++ s.fixText.toList ++ doc.drop s.fixPos ∧
        doc.take s.fixPos ++ doc.drop s.fixPos = doc := by
  simp only [diagnosticFor] at h
  by_cases hlen : 0 < (unusedClassNamesOf markAsUsedClassNames r).length
  case neg =>
    rw [if_neg hlen] at h
    exact absurd h (by simp)
  case pos =>
    rw [if_pos hlen] at h
    cases hm : r.meta with
    | none =>
      simp only [hm] at h
      exact absurd h (by simp)
    | some m =>
      simp only [hm] at h
      by_cases hemp : m.cssFilePath.isEmpty = true
      · rw [if_pos hemp] at h
        exact absurd h (by simp)
      · rw [if_neg hemp] at h
        injection h with h1
        refine ⟨m, rfl, ?_, rfl, ?_⟩
        · rw [← h1]
        · intro doc s hs
          rw [← h1] at hs
          simp only [List.mem_singleton] at hs
          subst hs
          exact ⟨rfl, List.take_append_drop _ _⟩
  
/-- Claim C4 witness: the anchored record with the unused class `b` yields the
concrete diagnostic `diagAnchored`, whose single suggestion carries the full
payload and inserts the directive line at the anchor's range start. -/
theorem fix_suggestion_complete_witness :
    diagnosticFor [] recAnchored = some diagAnchored ∧
    diagAnchored.suggest =
      [{ dataClassNames := getFixPayloadClassNames (unusedClassNamesOf [] recAnchored),
         fixPos := nodeImp.rangeStart,
         fixText := fixLineFor (getFixPayloadClassNames
           (unusedClassNamesOf [] recAnchored)) }] := by
  obtain ⟨m, hm, hs, _, _⟩ := fix_suggestion_complete [] recAnchored diagAnchored (by decide)
  have hm0 : recAnchored.meta =
      some { importNode := nodeImp, cssFilePath := "/proj/x.module.css" } := rfl
  rw [hm0] at hm
  injection hm with hm1
  rw [← hm1] at hs
  exact ⟨by decide, hs⟩
